import Mathlib

/-!
Verification of the tag-filter content script (src/content.js).

JS strings are modelled as lists of characters (`Str`).  The stateful
parts of the `GoogleTasksFilter` class are modelled as pure functions on
an explicit `FilterState`; DOM task rows are modelled by `TaskRow`
records carrying the rendered text, the class set and the remaining
attributes.  Persistence (`Storage`) and rendering side effects are
outside the claims and are not modelled.
-/

namespace TasksFilter

/-- JS strings, modelled as lists of characters. -/
abbrev Str := List Char

/-- `s.toLowerCase()`, applied character-wise.  The source only relies on
basic-latin case folding (tags and the fixed phrases are ASCII), which is
exactly what `Char.toLower` implements. -/
def toLowerStr (s : Str) : Str := s.map Char.toLower

/-- `val.replace('#', '')` — JS `String.prototype.replace` with a string
pattern removes only the FIRST occurrence of `'#'`, wherever it is. -/
def removeFirstHash : Str → Str
  | [] => []
  | c :: cs => if c = '#' then cs else c :: removeFirstHash cs

/-- The normalization inside `addTag` (src/content.js:175):
`const clean = val.replace('#', '').toLowerCase()`. -/
def cleanTag (val : Str) : Str := toLowerStr (removeFirstHash val)

/-- `this.state.filterMode`, either `'OR'` ("Any") or `'AND'` ("All"). -/
inductive FilterMode where
  | OR : FilterMode
  | AND : FilterMode
deriving DecidableEq

/-- The filter state of the class (src/content.js:32–37): the persisted tag
vocabulary `tags` (a JS array), the in-memory `activeFilters` (a JS `Set`)
and the combination mode.  `isDeleteMode` and the DOM handles only affect
UI wiring and are not needed for the claims. -/
structure FilterState where
  tags : List Str
  activeFilters : Finset Str
  filterMode : FilterMode

/-- `addTag` (src/content.js:174–180), restricted to its effect on the
vocabulary: push the normalized tag unless it is already present. -/
def addTag (val : Str) (tags : List Str) : List Str :=
  if cleanTag val ∈ tags then tags else tags ++ [cleanTag val]

/-- `deleteTag` (src/content.js:182–189): drop the tag from the vocabulary
and delete it from the active-filter set. -/
def deleteTag (tag : Str) (s : FilterState) : FilterState :=
  { s with
    tags := s.tags.filter (fun t => t ≠ tag)
    activeFilters := s.activeFilters.erase tag }

/-- The fixed phrase `'add a task'` of the protection check. -/
def addATask : Str := ("add a task").toList

/-- The fixed phrase `'create new'` of the protection check. -/
def createNew : Str := ("create new").toList

/-- The visibility marker class `'task-hidden'`. -/
def hiddenClass : Str := ("task-hidden").toList

/-- The "add task" affordance check (src/content.js:202):
`text.includes('add a task') || text.includes('create new')`. -/
def isProtected (text : Str) : Bool :=
  decide (addATask <:+: text) || decide (createNew <:+: text)

/-- `text.includes('#' + tag)` (src/content.js:219 and 226). -/
def tagHit (text tag : Str) : Bool := decide (('#' :: tag) <:+: text)

/-- The per-row visibility decision of `applyFilter` (src/content.js:196–233)
on the already case-folded text: protected rows and an empty filter set are
force-shown; otherwise OR mode counts matching tags and shows when the count
is positive, AND mode shows only when every active tag matches. -/
def rowShownText (s : FilterState) (text : Str) : Bool :=
  if isProtected text = true then true
  else if s.activeFilters.card = 0 then true
  else match s.filterMode with
    | FilterMode.OR =>
        decide (0 < (s.activeFilters.filter (fun tag => tagHit text tag = true)).card)
    | FilterMode.AND =>
        decide (∀ tag ∈ s.activeFilters, tagHit text tag = true)

/-- The visibility decision on the raw row text:
`const text = task.innerText.toLowerCase()` (src/content.js:197). -/
def rowShown (s : FilterState) (rawText : Str) : Bool :=
  rowShownText s (toLowerStr rawText)

/-- A host task row (`div[role="listitem"]`): its rendered text, its class
set, and its remaining attributes (which `applyFilter` never touches). -/
structure TaskRow where
  text : Str
  classes : Finset Str
  attrs : List (Str × Str)
deriving DecidableEq

/-- The per-row effect of `applyFilter`: every branch either removes
(`classList.remove`, src/content.js:203, 210, 231) or adds
(`classList.add`, src/content.js:232) the single class `'task-hidden'`,
and the three remove-branches are exactly the cases where `rowShownText`
is `true`. -/
def applyFilterRow (s : FilterState) (r : TaskRow) : TaskRow :=
  if rowShown s r.text = true then { r with classes := r.classes.erase hiddenClass }
  else { r with classes := insert hiddenClass r.classes }

/-- `applyFilter` over the current task rows (src/content.js:193–234):
a per-row update applied to each row in order. -/
def applyFilter (s : FilterState) (rows : List TaskRow) : List TaskRow :=
  rows.map (applyFilterRow s)

/-- The chip order produced by `this.state.tags.sort()` (src/content.js:113):
JS default sort compares strings lexicographically, modelled by sorting
under the lexicographic order on `List Char`. -/
def renderChipTags (tags : List Str) : List Str :=
  List.insertionSort (fun a b => a ≤ b) tags

/-- The active-filter set of the spec example: `{"work", "urgent"}`. -/
def workUrgent : Finset Str := {("work").toList, ("urgent").toList}

/- ### Character-level helper lemmas -/

theorem charToNatOfNat (n : Nat) (h : n < 55296) : (Char.ofNat n).toNat = n := by
  rw [Char.ofNat, dif_pos (Or.inl h)]
  simp [Char.ofNatAux, Char.toNat, UInt32.ofNat', UInt32.toNat, BitVec.toNat_ofNatLt]

theorem charToLowerDef (c : Char) :
    Char.toLower c = if c.toNat ≥ 65 ∧ c.toNat ≤ 90 then Char.ofNat (c.toNat + 32) else c := rfl

theorem charToLowerIdem (c : Char) : Char.toLower (Char.toLower c) = Char.toLower c := by
  by_cases h : c.toNat ≥ 65 ∧ c.toNat ≤ 90
  · rw [charToLowerDef c, if_pos h, charToLowerDef, charToNatOfNat (c.toNat + 32) (by omega),
      if_neg (by omega)]
  · rw [charToLowerDef c, if_neg h, charToLowerDef c, if_neg h]

theorem charToLowerHash (c : Char) (h : Char.toLower c = '#') : c = '#' := by
  by_cases hc : c.toNat ≥ 65 ∧ c.toNat ≤ 90
  · rw [charToLowerDef, if_pos hc] at h
    have h2 : (Char.ofNat (c.toNat + 32)).toNat = ('#').toNat := by rw [h]
    rw [charToNatOfNat (c.toNat + 32) (by omega)] at h2
    have h3 : ('#').toNat = 35 := by decide
    omega
  · rw [charToLowerDef, if_neg hc] at h
    exact h

theorem toLowerStrIdem (s : Str) : toLowerStr (toLowerStr s) = toLowerStr s := by
  simp only [toLowerStr, List.map_map]
  apply List.map_congr_left
  intro c _
  exact charToLowerIdem c

theorem hashMemToLowerStr (s : Str) : '#' ∈ toLowerStr s ↔ '#' ∈ s := by
  constructor
  · intro h
    obtain ⟨c, hc, he⟩ := List.mem_map.mp h
    rwa [charToLowerHash c he] at hc
  · intro h
    have : Char.toLower '#' = '#' := by decide
    exact List.mem_map.mpr ⟨'#', h, this⟩

theorem removeFirstHashOfNotMem (l : Str) (h : '#' ∉ l) : removeFirstHash l = l := by
  induction l with
  | nil => rfl
  | cons c cs ih =>
    rw [removeFirstHash, if_neg (by intro he; exact h (he ▸ List.mem_cons_self c cs))]
    rw [ih (fun hm => h (List.mem_cons_of_mem c hm))]

theorem removeFirstHashCount (l : Str) (h : l.count '#' ≤ 1) : '#' ∉ removeFirstHash l := by
  induction l with
  | nil => simp [removeFirstHash]
  | cons c cs ih =>
    by_cases hc : c = '#'
    · subst hc
      rw [removeFirstHash, if_pos rfl]
      rw [List.count_cons_self] at h
      exact List.count_eq_zero.mp (by omega)
    · rw [removeFirstHash, if_neg hc]
      intro hm
      rcases List.mem_cons.mp hm with he | hm2
      · exact hc he.symm
      · rw [List.count_cons_of_ne (fun he => hc he.symm)] at h
        exact ih h hm2

theorem hashNotMemCleanTag (t : Str) (h : t.count '#' ≤ 1) : '#' ∉ cleanTag t := by
  intro hm
  exact removeFirstHashCount t h ((hashMemToLowerStr (removeFirstHash t)).mp hm)

/- ### Claim theorems -/

/-- Claim C2 (counterexample): the normalization used by `addTag` is NOT a
fixed point on every string — JS `replace('#', '')` removes only the first
`'#'`, so normalizing `"##"` yields `"#"` and normalizing again yields `""`. -/
theorem cleanTag_fixed_point_cex :
    cleanTag (cleanTag (("##").toList)) ≠ cleanTag (("##").toList) := by decide

/-- Claim C2 (amended): the normalization used by `addTag` removes only the
first `'#'` occurrence and lowercases, so it is a fixed point on every
string containing at most one `'#'` character. -/
theorem cleanTag_fixed_point (t : Str) (h : t.count '#' ≤ 1) :
    cleanTag (cleanTag t) = cleanTag t := by
  have h1 : '#' ∉ cleanTag t := hashNotMemCleanTag t h
  show toLowerStr (removeFirstHash (cleanTag t)) = cleanTag t
  rw [removeFirstHashOfNotMem (cleanTag t) h1]
  exact toLowerStrIdem (removeFirstHash t)

/-- Claim C2 (witness): the fixed-point property at the concrete input `"#A"`. -/
theorem cleanTag_fixed_point_wit :
    cleanTag (cleanTag (("#A").toList)) = cleanTag (("#A").toList) :=
  cleanTag_fixed_point (("#A").toList) (by decide)

/-- Claim C7: `addTag` is idempotent on the vocabulary — adding the same
input twice leaves the vocabulary identical to adding it once, for every
starting vocabulary. -/
theorem addTag_idempotent (val : Str) (tags : List Str) :
    addTag val (addTag val tags) = addTag val tags := by
  have h : cleanTag val ∈ addTag val tags := by
    unfold addTag
    split
    · assumption
    · simp
  show (if cleanTag val ∈ addTag val tags then addTag val tags
        else addTag val tags ++ [cleanTag val]) = addTag val tags
  rw [if_pos h]

/-- Claim C3 (counterexample): `addTag` does not strip a leading `'#'` in
general and does not trim — on the empty vocabulary, input `"##a"` is stored
as `"#a"`, an entry that still begins with `'#'`; and input `" A "` keeps its
surrounding whitespace. -/
theorem addTag_invariant_cex :
    addTag (("##a").toList) [] = [("#a").toList] ∧
    (("#a").toList).head? = some '#' ∧
    cleanTag ((" A ").toList) = ((" a ").toList) := by decide

/-- Claim C3 (amended): `addTag` normalizes by removing the first `'#'`
occurrence (wherever it is) and lowercasing — it does not trim; on a state
with no duplicates and all entries lowercase, `addTag` preserves those two
invariants, but an entry may retain `'#'` characters (even a leading one)
and whitespace. -/
theorem addTag_invariant (val : Str) (tags : List Str)
    (hnd : tags.Nodup) (hlc : ∀ t ∈ tags, toLowerStr t = t) :
    (addTag val tags).Nodup ∧ ∀ t ∈ addTag val tags, toLowerStr t = t := by
  unfold addTag
  split
  · exact ⟨hnd, hlc⟩
  · next hne =>
    constructor
    · refine List.Nodup.append hnd (List.nodup_singleton _) ?_
      intro a ha hb
      rw [List.mem_singleton.mp hb] at ha
      exact hne ha
    · intro t ht
      rcases List.mem_append.mp ht with hm | hm
      · exact hlc t hm
      · rw [List.mem_singleton.mp hm]
        exact toLowerStrIdem (removeFirstHash val)

/-- Claim C3 (witness): the amended invariant holds after adding `"#Work"`
to the empty vocabulary. -/
theorem addTag_invariant_wit :
    (addTag (("#Work").toList) []).Nodup ∧
    ∀ t ∈ addTag (("#Work").toList) [], toLowerStr t = t :=
  addTag_invariant (("#Work").toList) [] (by decide) (by decide)

/-- Claim C4: a row whose case-folded text contains `"add a task"` passes the
protection check, so `applyFilter` always marks it shown — the hidden-marker
class is absent afterwards — whatever the active filters and the mode. -/
theorem addATask_always_shown (s : FilterState) (r : TaskRow)
    (h : addATask <:+: toLowerStr r.text) :
    rowShown s r.text = true ∧ hiddenClass ∉ (applyFilterRow s r).classes := by
  have hp : isProtected (toLowerStr r.text) = true := by
    unfold isProtected
    simp [h]
  have hs : rowShown s r.text = true := by
    unfold rowShown rowShownText
    simp [hp]
  refine ⟨hs, ?_⟩
  unfold applyFilterRow
  rw [if_pos hs]
  exact Finset.not_mem_erase hiddenClass r.classes

/-- Claim C4 (witness): a row reading `"Add a task"` stays shown even though
the active filters `{"work", "urgent"}` match nothing in it. -/
theorem addATask_always_shown_wit :
    rowShown ⟨[], workUrgent, FilterMode.OR⟩ (("Add a task").toList) = true ∧
    hiddenClass ∉
      (applyFilterRow ⟨[], workUrgent, FilterMode.OR⟩
        ⟨("Add a task").toList, ∅, []⟩).classes :=
  addATask_always_shown ⟨[], workUrgent, FilterMode.OR⟩
    ⟨("Add a task").toList, ∅, []⟩ (by decide)

/-- Claim C5: with an empty active-filter set, `applyFilter` marks every row
shown, regardless of the row text and of the mode. -/
theorem emptyFilters_all_shown (s : FilterState) (raw : Str)
    (h : s.activeFilters = ∅) : rowShown s raw = true := by
  unfold rowShown rowShownText
  by_cases hp : isProtected (toLowerStr raw) = true
  · simp [hp]
  · simp [hp, h]

/-- Claim C5 (witness): an arbitrary row is shown under the empty filter set
in AND mode. -/
theorem emptyFilters_all_shown_wit :
    rowShown ⟨[], ∅, FilterMode.AND⟩ (("buy milk").toList) = true :=
  emptyFilters_all_shown ⟨[], ∅, FilterMode.AND⟩ (("buy milk").toList) rfl

/-- Claim C6: for a tag present in both the vocabulary and the active-filter
set, one `deleteTag` call removes it from both collections. -/
theorem deleteTag_removes_both (s : FilterState) (tag : Str)
    (h1 : tag ∈ s.tags) (h2 : tag ∈ s.activeFilters) :
    tag ∉ (deleteTag tag s).tags ∧ tag ∉ (deleteTag tag s).activeFilters := by
  constructor
  · intro hmem
    have := (List.mem_filter.mp hmem).2
    simp at this
  · exact Finset.not_mem_erase tag s.activeFilters

/-- Claim C6 (witness): deleting the active tag `"work"` empties both
collections of it. -/
theorem deleteTag_removes_both_wit :
    ("work").toList ∉
      (deleteTag (("work").toList) ⟨[("work").toList], workUrgent, FilterMode.OR⟩).tags ∧
    ("work").toList ∉
      (deleteTag (("work").toList)
        ⟨[("work").toList], workUrgent, FilterMode.OR⟩).activeFilters :=
  deleteTag_removes_both ⟨[("work").toList], workUrgent, FilterMode.OR⟩
    (("work").toList) (by decide) (by decide)

/-- Claim C1 (counterexample): the membership rule alone does not decide
visibility — the protection check runs first, so a row reading
`"add a task"` is shown under AND mode with active filters
`{"work", "urgent"}` although not every active tag's `'#'+tag` form occurs
in it. -/
theorem applyFilter_mode_membership_cex :
    rowShown ⟨[], workUrgent, FilterMode.AND⟩ (("add a task").toList) = true ∧
    ¬ (∀ t ∈ workUrgent, ('#' :: t) <:+: toLowerStr (("add a task").toList)) := by
  decide

/-- Claim C1 (amended): for a row whose case-folded text contains neither
`"add a task"` nor `"create new"`, and a non-empty active-filter set, OR
("Any") mode shows the row iff at least one active tag's `'#'+tag` form is a
substring of the case-folded text, and AND ("All") mode shows it iff every
active tag's form is; in particular a row reading `"buy milk #work"` is
shown under `{"work", "urgent"}` in OR mode and hidden in AND mode. -/
theorem applyFilter_mode_membership (s : FilterState) (raw : Str)
    (hex : isProtected (toLowerStr raw) = false)
    (hne : s.activeFilters.Nonempty) :
    (rowShown s raw = true ↔
      match s.filterMode with
      | FilterMode.OR => ∃ t ∈ s.activeFilters, ('#' :: t) <:+: toLowerStr raw
      | FilterMode.AND => ∀ t ∈ s.activeFilters, ('#' :: t) <:+: toLowerStr raw) ∧
    rowShown ⟨[], workUrgent, FilterMode.OR⟩ (("buy milk #work").toList) = true ∧
    rowShown ⟨[], workUrgent, FilterMode.AND⟩ (("buy milk #work").toList) = false := by
  refine ⟨?_, by decide, by decide⟩
  obtain ⟨tags, af, mode⟩ := s
  unfold rowShown rowShownText
  rw [if_neg (by simp [hex]), if_neg (by simp [Finset.card_eq_zero]; exact hne.ne_empty)]
  cases mode with
  | OR =>
    simp only [decide_eq_true_eq, Finset.card_pos, Finset.filter_nonempty_iff, tagHit]
  | AND =>
    simp only [decide_eq_true_eq, tagHit]

/-- Claim C1 (witness): the OR-mode instance at the concrete spec example. -/
theorem applyFilter_mode_membership_wit :
    rowShown ⟨[], workUrgent, FilterMode.OR⟩ (("buy milk #work").toList) = true :=
  (applyFilter_mode_membership ⟨[], workUrgent, FilterMode.OR⟩
    (("buy milk #work").toList) (by decide) (by decide)).2.1

/-- Claim C8: the chips render in lexicographic order of tag text for every
vocabulary — the rendered sequence is sorted and is a permutation of the
vocabulary — and inserting `"zebra"` then `"apple"` renders `"apple"`
before `"zebra"`. -/
theorem renderChipTags_sorted (tags : List Str) :
    List.Sorted (fun a b : Str => a ≤ b) (renderChipTags tags) ∧
    List.Perm (renderChipTags tags) tags ∧
    renderChipTags (addTag (("apple").toList) (addTag (("zebra").toList) [])) =
      [("apple").toList, ("zebra").toList] := by
  refine ⟨List.sorted_insertionSort _ _, List.perm_insertionSort _ _, by decide⟩

/-- Claim C9: visibility recomputation only toggles the single marker class
`'task-hidden'` on each row — text and attributes are unchanged, every other
class is untouched, the class set changes only by removing or inserting the
marker — and `applyFilter` is a per-row map, so rows are neither reordered
nor added nor dropped. -/
theorem applyFilter_frame (s : FilterState) (r : TaskRow) (rows : List TaskRow) :
    (applyFilterRow s r).text = r.text ∧
    (applyFilterRow s r).attrs = r.attrs ∧
    (applyFilterRow s r).classes.erase hiddenClass = r.classes.erase hiddenClass ∧
    ((applyFilterRow s r).classes = r.classes.erase hiddenClass ∨
      (applyFilterRow s r).classes = insert hiddenClass r.classes) ∧
    applyFilter s rows = List.map (applyFilterRow s) rows ∧
    List.map TaskRow.text (applyFilter s rows) = List.map TaskRow.text rows := by
  have hrow : ∀ r2 : TaskRow,
      (applyFilterRow s r2).text = r2.text ∧
      (applyFilterRow s r2).attrs = r2.attrs ∧
      ((applyFilterRow s r2).classes = r2.classes.erase hiddenClass ∨
        (applyFilterRow s r2).classes = insert hiddenClass r2.classes) := by
    intro r2
    unfold applyFilterRow
    split
    · exact ⟨rfl, rfl, Or.inl rfl⟩
    · exact ⟨rfl, rfl, Or.inr rfl⟩
  have herase : (applyFilterRow s r).classes.erase hiddenClass =
      r.classes.erase hiddenClass := by
    rcases (hrow r).2.2 with he | he
    · rw [he, Finset.erase_idem]
    · rw [he, Finset.erase_insert_eq_erase]
  have hmap : List.map TaskRow.text (applyFilter s rows) =
      List.map TaskRow.text rows := by
    unfold applyFilter
    rw [List.map_map]
    exact List.map_congr_left (fun a _ => (hrow a).1)
  exact ⟨(hrow r).1, (hrow r).2.1, herase, (hrow r).2.2, rfl, hmap⟩

/-- In a character-list string, the one-character string `[a]` is a substring
iff the character occurs. -/
theorem singletonInfixIff (a : Char) (l : Str) : [a] <:+: l ↔ a ∈ l := by
  constructor
  · rintro ⟨u, v, hl⟩
    rw [← hl]
    simp
  · intro h
    obtain ⟨u, v, hl⟩ := List.append_of_mem h
    exact ⟨u, v, by simp [hl]⟩

/-- Claim C10: `addTag` accepts an input normalizing to the empty string —
`addTag("#")` appends `""` to any vocabulary not already holding it — and
with the empty tag active the membership test `text.includes('#' + tag)`
degenerates to checking for the substring `"#"`, so exactly the rows whose
case-folded text contains a `'#'` character match it, and any such row is
shown in OR mode with `{""}` active. -/
theorem emptyTag_behavior (tags : List Str) (hmem : ([] : Str) ∉ tags) (raw : Str) :
    addTag (("#").toList) tags = tags ++ [[]] ∧
    (tagHit (toLowerStr raw) [] = true ↔ '#' ∈ toLowerStr raw) ∧
    ('#' ∈ toLowerStr raw →
      ∀ tg : List Str, rowShown ⟨tg, {[]}, FilterMode.OR⟩ raw = true) := by
  have hhit : tagHit (toLowerStr raw) [] = true ↔ '#' ∈ toLowerStr raw := by
    unfold tagHit
    simp only [decide_eq_true_eq]
    exact singletonInfixIff '#' (toLowerStr raw)
  refine ⟨?_, hhit, ?_⟩
  · have hc : cleanTag (("#").toList) = ([] : Str) := rfl
    unfold addTag
    rw [hc, if_neg hmem]
  · intro hhash tg
    unfold rowShown rowShownText
    by_cases hp : isProtected (toLowerStr raw) = true
    · simp [hp]
    · rw [if_neg hp, if_neg (by simp)]
      simp only [decide_eq_true_eq, Finset.card_pos, Finset.filter_nonempty_iff]
      exact ⟨[], Finset.mem_singleton_self [], hhit.mpr hhash⟩

/-- Claim C10 (witness): starting from the empty vocabulary, `addTag("#")`
stores `""`, and the row `"x #y"` matches the empty tag and is shown. -/
theorem emptyTag_behavior_wit :
    addTag (("#").toList) [] = [[]] ∧
    (tagHit (toLowerStr (("x #y").toList)) [] = true ↔
      '#' ∈ toLowerStr (("x #y").toList)) ∧
    ('#' ∈ toLowerStr (("x #y").toList) →
      ∀ tg : List Str,
        rowShown ⟨tg, {[]}, FilterMode.OR⟩ (("x #y").toList) = true) :=
  emptyTag_behavior [] (by decide) (("x #y").toList)

end TasksFilter
